import Mathlib

/-!
Verification of the aioarxiv core against its specification.

This file gives a shallow embedding, in Lean 4, of the parts of the
aioarxiv Python client that the specification talks about:

* the paper-merging / aggregation logic of
  `aioarxiv/client/arxiv_client.py` (`_merge_paper_lists`,
  `aggregate_search_results`, `search`, `_generate_page_params`,
  `_build_query_params`);
* the sliding-window rate limiter of `aioarxiv/utils/rate_limiter.py`
  (`_clean_expired`, `_wait_if_needed`, the `limit` decorator);
* the XML response parsing of `aioarxiv/utils/parser.py`
  (`RootParser.parse_total_result`, `RootParser.build_search_result`,
  `PaperParser.parse_categories`);
* the pydantic models of `aioarxiv/models/__init__.py`
  (`SearchParams`, `Metadata` with its duration fields).

Times are modelled as exact rationals, Python `int` as `Int`, fallible
code as `Except`.  Python dictionaries (insertion ordered) are modelled
as association lists, `collections.deque(maxlen=n)` as a list with an
explicit bounded append.
-/

namespace Aioarxiv

/-! ## Domain model (aioarxiv/models/__init__.py)

Only the fields the verified code touches are carried.  Timestamps are
rational instants; `astimezone` does not change an instant, so timezone
conversions in the source are identities here. -/

/-- Model of the error kinds the embedded code can raise.  `parserException`
is aioarxiv's own `ParserException` (the spec's `ParseError`); `valueError`
is Python's builtin `ValueError` (raised e.g. by `int(...)` on a
non-numeric string, or by `deque(maxlen=n)` for negative `n`). -/
inductive PyError where
  | parserException
  | valueError
  deriving Repr, DecidableEq

/-- Model of `BasicInfo`: the fields used by merging (`id`, `updated`)
plus `title` as a representative payload distinguishing records. -/
structure BasicInfo where
  id : String
  title : String
  updated : ℚ
  deriving Repr, DecidableEq

/-- Model of `Paper`: merging only reads `paper.info`. -/
structure Paper where
  info : BasicInfo
  deriving Repr, DecidableEq

/-- Model of `SearchParams`.  In the source `query` is a required string
field and `id_list` an optional list; `start` is passed as an optional
int by the client, `sort_by` / `sort_order` carry their enum `.value`
strings. -/
structure SearchParams where
  query : String
  id_list : Option (List String)
  start : Option Int
  max_results : Option Int
  sort_by : Option String
  sort_order : Option String
  deriving Repr, DecidableEq

/-- Validation performed by pydantic on `SearchParams` construction:
`start` must be `≥ 0` and `max_results` must be `> 0` when given.
There is no cross-field validator: `query` and `id_list` are validated
independently of one another. -/
def searchParamsValid (p : SearchParams) : Prop :=
  (∀ s, p.start = some s → 0 ≤ s) ∧ (∀ m, p.max_results = some m → 0 < m)

instance (p : SearchParams) : Decidable (searchParamsValid p) := by
  unfold searchParamsValid
  cases p.start <;> cases p.max_results <;> exact inferInstance

/-- Model of `Metadata`.  `end_time` is optional here because
`aggregate_search_results` explicitly handles a missing end time
(`default=None`); in the pydantic model both timestamps default to the
construction instant. -/
structure Metadata where
  start_time : ℚ
  end_time : Option ℚ
  missing_results : Int
  pagesize : Int
  source : String
  deriving Repr, DecidableEq

/-- Model of `SearchResult`. -/
structure SearchResult where
  papers : List Paper
  total_result : Int
  page : Int
  has_next : Bool
  query_params : SearchParams
  metadata : Metadata
  deriving Repr, DecidableEq

/-- Model of the `papers_count` computed field of `SearchResult`. -/
def SearchResult.papers_count (r : SearchResult) : Int :=
  (r.papers.length : Int)

/-- Model of `PageParam`; `stop` models the source field `end` (a Lean
keyword). -/
structure PageParam where
  start : Int
  stop : Int
  deriving Repr, DecidableEq

/-! ## Python dict model

`ArxivClient._merge_paper_lists` builds a `dict[str, Paper]`.  A Python
dict preserves the insertion order of first-seen keys; assigning to an
existing key replaces the value in place.  We model it as an
association list. -/

/-- Lookup in the insertion-ordered mapping (model of `d[k]` / `k in d`). -/
def dictFind : List (String × Paper) → String → Option Paper
  | [], _ => none
  | kv :: rest, k => if kv.1 == k then some kv.2 else dictFind rest k

/-- Assignment `d[k] = v`: replaces the value of an existing key in
place (keeping its position), otherwise appends the new key at the end. -/
def dictSet : List (String × Paper) → String → Paper → List (String × Paper)
  | [], k, v => [(k, v)]
  | kv :: rest, k, v => if kv.1 == k then (k, v) :: rest else kv :: dictSet rest k v

/-- Keys of the mapping in insertion order (model of `d.keys()`). -/
def dictKeys (m : List (String × Paper)) : List String :=
  m.map Prod.fst

/-- Values of the mapping in insertion order (model of `list(d.values())`). -/
def dictValues (m : List (String × Paper)) : List Paper :=
  m.map Prod.snd

/-! ## `ArxivClient._merge_paper_lists` -/

/-- One loop iteration of `_merge_paper_lists`: store `paper` under its
id if the id is unseen, or if `keep_latest` and its `updated` timestamp
is strictly greater than the stored one. -/
def merge_step (keep_latest : Bool) (m : List (String × Paper)) (paper : Paper) :
    List (String × Paper) :=
  match dictFind m paper.info.id with
  | none => dictSet m paper.info.id paper
  | some current =>
      if keep_latest = true ∧ current.info.updated < paper.info.updated then
        dictSet m paper.info.id paper
      else
        m

/-- Model of `ArxivClient._merge_paper_lists`: fold every paper of every
input list through `merge_step` and return the stored values in
insertion order of first-seen ids. -/
def merge_paper_lists (papers_lists : List (List Paper)) (keep_latest : Bool) :
    List Paper :=
  dictValues
    (papers_lists.foldl (fun m papers => papers.foldl (merge_step keep_latest) m) [])

/-! ## Specification-side merge (from the spec's words, for claim C1)

The spec describes deduplication as: keep first-seen id order, and for
each id choose the occurrence with the strictly greatest `updated`
timestamp, first occurrence winning ties. -/

/-- First occurrences of ids, in order of first appearance (spec words:
"insertion order of first-seen ids"). -/
def first_seen_from (seen : List String) : List String → List String
  | [] => seen
  | x :: xs =>
      if x ∈ seen then first_seen_from seen xs else first_seen_from (seen ++ [x]) xs

/-- Choice between a stored paper and a new one (spec words: replace
only when the new `updated` is strictly greater; first wins on ties). -/
def pick_later (acc : Option Paper) (p : Paper) : Option Paper :=
  match acc with
  | none => some p
  | some q => if q.info.updated < p.info.updated then some p else some q

/-- The paper the spec chooses for a given id among all occurrences. -/
def choose_by_id (ps : List Paper) (k : String) : Option Paper :=
  (ps.filter (fun p => p.info.id == k)).foldl pick_later none

/-- Merge as the spec words it: first-seen ids in order, each mapped to
its chosen occurrence. -/
def merge_spec (ps : List Paper) : List Paper :=
  (first_seen_from [] (ps.map (fun p => p.info.id))).filterMap (choose_by_id ps)

/-! ### Dict lemmas -/

theorem dictKeys_nil : dictKeys [] = [] := rfl

theorem dictKeys_cons (kv : String × Paper) (rest : List (String × Paper)) :
    dictKeys (kv :: rest) = kv.1 :: dictKeys rest := rfl

theorem dictFind_dictSet_self (m : List (String × Paper)) (k : String) (v : Paper) :
    dictFind (dictSet m k v) k = some v := by
  induction m with
  | nil => simp [dictSet, dictFind]
  | cons kv rest ih =>
      cases hk : (kv.1 == k) with
      | true => simp [dictSet, dictFind, hk]
      | false => simp [dictSet, dictFind, hk, ih]

theorem dictFind_dictSet_other (m : List (String × Paper)) (k j : String) (v : Paper)
    (h : j ≠ k) : dictFind (dictSet m k v) j = dictFind m j := by
  have hkj : (k == j) = false := beq_eq_false_iff_ne.mpr (fun hh => h hh.symm)
  induction m with
  | nil => simp [dictSet, dictFind, hkj]
  | cons kv rest ih =>
      cases hk : (kv.1 == k) with
      | true =>
          have hk1 : kv.1 = k := eq_of_beq hk
          have hkvj : (kv.1 == j) = false := by rw [hk1]; exact hkj
          simp [dictSet, dictFind, hk, hkj, hkvj]
      | false =>
          cases hj : (kv.1 == j) with
          | true => simp [dictSet, dictFind, hk, hj]
          | false => simp [dictSet, dictFind, hk, hj, ih]

theorem dictKeys_dictSet (m : List (String × Paper)) (k : String) (v : Paper) :
    dictKeys (dictSet m k v) =
      if k ∈ dictKeys m then dictKeys m else dictKeys m ++ [k] := by
  induction m with
  | nil => simp [dictSet, dictKeys]
  | cons kv rest ih =>
      cases hk : (kv.1 == k) with
      | true =>
          have hk1 : kv.1 = k := eq_of_beq hk
          have hmem : k ∈ dictKeys (kv :: rest) := by
            rw [dictKeys_cons, hk1]
            exact List.mem_cons_self k (dictKeys rest)
          rw [show dictSet (kv :: rest) k v = (k, v) :: rest from by simp [dictSet, hk]]
          rw [if_pos hmem, dictKeys_cons, dictKeys_cons, hk1]
      | false =>
          have hk1 : ¬kv.1 = k := ne_of_beq_false hk
          simp only [dictSet, hk, Bool.false_eq_true, if_false, dictKeys_cons, ih]
          by_cases hmem : k ∈ dictKeys rest
          · have hmem2 : k ∈ kv.1 :: dictKeys rest := List.mem_cons_of_mem _ hmem
            rw [if_pos hmem, if_pos hmem2]
          · have hmem2 : k ∉ kv.1 :: dictKeys rest := by
              intro hc
              rcases List.mem_cons.mp hc with h1 | h2
              · exact hk1 h1.symm
              · exact hmem h2
            rw [if_neg hmem, if_neg hmem2]
            simp

theorem dictFind_eq_none_iff (m : List (String × Paper)) (k : String) :
    dictFind m k = none ↔ k ∉ dictKeys m := by
  induction m with
  | nil => simp [dictFind, dictKeys]
  | cons kv rest ih =>
      cases hk : (kv.1 == k) with
      | true =>
          have hk1 : kv.1 = k := eq_of_beq hk
          simp [dictFind, hk, dictKeys_cons, hk1]
      | false =>
          have hk1 : ¬kv.1 = k := ne_of_beq_false hk
          simp only [dictFind, hk, Bool.false_eq_true, if_false, ih, dictKeys_cons,
            List.mem_cons]
          constructor
          · intro hnot hc
            rcases hc with h1 | h2
            · exact hk1 h1.symm
            · exact hnot h2
          · intro hnot h2
            exact hnot (Or.inr h2)

/-! ### Invariants of the merge fold -/

theorem dictFind_merge_fold (ps : List Paper) (m : List (String × Paper)) (k : String) :
    dictFind (ps.foldl (merge_step true) m) k =
      (ps.filter (fun p => p.info.id == k)).foldl pick_later (dictFind m k) := by
  induction ps generalizing m with
  | nil => rfl
  | cons p ps ih =>
      by_cases hk : p.info.id = k
      · have hstep : dictFind (merge_step true m p) k = pick_later (dictFind m k) p := by
          subst hk
          unfold merge_step pick_later
          cases hf : dictFind m p.info.id with
          | none => simp [hf, dictFind_dictSet_self]
          | some q =>
              by_cases hlt : q.info.updated < p.info.updated
              · simp [hf, hlt, dictFind_dictSet_self]
              · simp [hf, hlt]
        have hfil : (p :: ps).filter (fun q => q.info.id == k) =
            p :: ps.filter (fun q => q.info.id == k) := by
          simp [List.filter_cons, hk]
        rw [List.foldl_cons, ih, hstep, hfil, List.foldl_cons]
      · have hstep : dictFind (merge_step true m p) k = dictFind m k := by
          unfold merge_step
          cases hf : dictFind m p.info.id with
          | none => simp [dictFind_dictSet_other m p.info.id k p (fun hh => hk hh.symm)]
          | some q =>
              by_cases hlt : q.info.updated < p.info.updated
              · simp [hlt, dictFind_dictSet_other m p.info.id k p (fun hh => hk hh.symm)]
              · simp [hlt]
        have hfil : (p :: ps).filter (fun q => q.info.id == k) =
            ps.filter (fun q => q.info.id == k) := by
          simp [List.filter_cons, hk]
        rw [List.foldl_cons, ih, hstep, hfil]

theorem dictKeys_merge_step (b : Bool) (m : List (String × Paper)) (p : Paper) :
    dictKeys (merge_step b m p) =
      if p.info.id ∈ dictKeys m then dictKeys m else dictKeys m ++ [p.info.id] := by
  unfold merge_step
  cases hf : dictFind m p.info.id with
  | none =>
      have : p.info.id ∈ dictKeys m → False := by
        intro hmem
        exact ((dictFind_eq_none_iff m p.info.id).mp hf) hmem
      simp [dictKeys_dictSet, this]
  | some q =>
      have hmem : p.info.id ∈ dictKeys m := by
        by_contra hmem
        have := (dictFind_eq_none_iff m p.info.id).mpr hmem
        rw [this] at hf
        exact Option.noConfusion hf
      by_cases hlt : b = true ∧ q.info.updated < p.info.updated
      · simp [hlt, dictKeys_dictSet, hmem]
      · simp [hlt, hmem]

theorem dictKeys_merge_fold (b : Bool) (ps : List Paper) (m : List (String × Paper)) :
    dictKeys (ps.foldl (merge_step b) m) =
      first_seen_from (dictKeys m) (ps.map (fun p => p.info.id)) := by
  induction ps generalizing m with
  | nil => rfl
  | cons p ps ih =>
      simp only [List.foldl_cons, List.map_cons, first_seen_from, ih]
      by_cases hmem : p.info.id ∈ dictKeys m
      · simp [dictKeys_merge_step, hmem]
      · simp [dictKeys_merge_step, hmem]

theorem first_seen_from_nodup (ids : List String) (seen : List String)
    (h : seen.Nodup) : (first_seen_from seen ids).Nodup := by
  induction ids generalizing seen with
  | nil => simpa [first_seen_from] using h
  | cons x xs ih =>
      by_cases hmem : x ∈ seen
      · simpa [first_seen_from, hmem] using ih seen h
      · have : (seen ++ [x]).Nodup := by
          simp [List.nodup_append, h, hmem]
        simpa [first_seen_from, hmem] using ih (seen ++ [x]) this

theorem filterMap_congr_mem {α β : Type} (l : List α) (f g : α → Option β)
    (h : ∀ a ∈ l, f a = g a) : l.filterMap f = l.filterMap g := by
  induction l with
  | nil => rfl
  | cons a l ih =>
      simp only [List.filterMap_cons, h a (List.mem_cons_self a l)]
      rw [ih (fun x hx => h x (List.mem_cons_of_mem a hx))]

theorem dictValues_eq_keys_filterMap (m : List (String × Paper))
    (h : (dictKeys m).Nodup) :
    dictValues m = (dictKeys m).filterMap (dictFind m) := by
  induction m with
  | nil => rfl
  | cons kv rest ih =>
      have h2 := List.nodup_cons.mp (by rw [dictKeys_cons] at h; exact h)
      have hhd : kv.1 ∉ dictKeys rest := h2.1
      have htl : (dictKeys rest).Nodup := h2.2
      have hfind : dictFind (kv :: rest) kv.1 = some kv.2 := by
        simp [dictFind]
      have hcongr : ∀ j ∈ dictKeys rest,
          dictFind (kv :: rest) j = dictFind rest j := by
        intro j hj
        have : ¬kv.1 = j := fun hh => hhd (hh ▸ hj)
        simp [dictFind, this]
      calc dictValues (kv :: rest) = kv.2 :: dictValues rest := rfl
    _ = kv.2 :: (dictKeys rest).filterMap (dictFind rest) := by rw [ih htl]
    _ = kv.2 :: (dictKeys rest).filterMap (dictFind (kv :: rest)) := by
          rw [filterMap_congr_mem (dictKeys rest) _ _ hcongr]
    _ = (dictKeys (kv :: rest)).filterMap (dictFind (kv :: rest)) := by
          simp [dictKeys, List.filterMap_cons, hfind]

theorem foldl_over_flatten {α β : Type} (step : β → α → β) (lls : List (List α)) (m : β) :
    lls.foldl (fun acc l => l.foldl step acc) m = lls.flatten.foldl step m := by
  induction lls generalizing m with
  | nil => rfl
  | cons l lls ih => simp [List.foldl_append, ih]

/-- C1: for every non-empty list of page paper lists,
`ArxivClient._merge_paper_lists` (with `keep_latest = True`, its value in
aggregation) deduplicates by id exactly as the spec words it: per id the
stored entry is replaced only when the new paper's `updated` timestamp is
strictly greater (the first occurrence is kept on equal timestamps), and
the merged list is ordered by insertion order of first-seen ids. -/
theorem C1_merge_paper_lists_dedup (papers_lists : List (List Paper))
    (hne : papers_lists ≠ []) :
    merge_paper_lists papers_lists true = merge_spec papers_lists.flatten := by
  clear hne
  unfold merge_paper_lists merge_spec
  rw [foldl_over_flatten]
  have hkeys : dictKeys (papers_lists.flatten.foldl (merge_step true) []) =
      first_seen_from [] (papers_lists.flatten.map (fun p => p.info.id)) :=
    dictKeys_merge_fold true papers_lists.flatten []
  have hnodup : (dictKeys (papers_lists.flatten.foldl (merge_step true) [])).Nodup := by
    rw [hkeys]
    exact first_seen_from_nodup _ [] List.nodup_nil
  rw [dictValues_eq_keys_filterMap _ hnodup, hkeys]
  exact filterMap_congr_mem _ _ _
    (fun k _ => by rw [dictFind_merge_fold papers_lists.flatten [] k]; rfl)

/-- Witness for C1: three pages with a duplicated id updated later, a
duplicated id tied on `updated`, and fresh ids. -/
theorem C1_merge_paper_lists_dedup_witness :
    ([[⟨⟨"a", "A1", 1⟩⟩, ⟨⟨"b", "B1", 5⟩⟩],
      [⟨⟨"a", "A2", 3⟩⟩, ⟨⟨"c", "C1", 2⟩⟩],
      [⟨⟨"b", "B2", 5⟩⟩]] : List (List Paper)) ≠ [] ∧
    merge_paper_lists
      [[⟨⟨"a", "A1", 1⟩⟩, ⟨⟨"b", "B1", 5⟩⟩],
       [⟨⟨"a", "A2", 3⟩⟩, ⟨⟨"c", "C1", 2⟩⟩],
       [⟨⟨"b", "B2", 5⟩⟩]] true =
    merge_spec
      ([[⟨⟨"a", "A1", 1⟩⟩, ⟨⟨"b", "B1", 5⟩⟩],
        [⟨⟨"a", "A2", 3⟩⟩, ⟨⟨"c", "C1", 2⟩⟩],
        [⟨⟨"b", "B2", 5⟩⟩]] : List (List Paper)).flatten :=
  ⟨by decide, C1_merge_paper_lists_dedup _ (by decide)⟩

/-! ## RateLimiter (aioarxiv/utils/rate_limiter.py)

The class-level state is a deque of acceptance timestamps (oldest
first), a call budget `_calls` and a window `_period`.  The decorated
wrapper runs, under one lock, `_clean_expired(now)`, then
`_wait_if_needed(now)`, then appends the post-wait time to the deque.
`asyncio.sleep(wait)` is modelled as advancing time by exactly `wait`. -/

/-- Model of `RateLimiter._clean_expired`: pop timestamps from the front
while the front is `≤ now - period`. -/
def clean_expired (period : ℚ) (now : ℚ) (timestamps : List ℚ) : List ℚ :=
  timestamps.dropWhile (fun t => decide (t ≤ now - period))

/-- Model of `RateLimiter._wait_if_needed`: if at least `calls`
timestamps remain, wait `timestamps[0] + period - now` when positive and
return the new current time, else return `now` unchanged.  The empty
match arm models the `timestamps[0]` lookup, which is never reached when
`1 ≤ calls ≤ len(timestamps)` (it would be an `IndexError`). -/
def wait_if_needed (calls : Int) (period : ℚ) (timestamps : List ℚ) (now : ℚ) : ℚ :=
  if (timestamps.length : Int) ≥ calls then
    match timestamps with
    | [] => now
    | t0 :: _ =>
        let wait := t0 + period - now
        if 0 < wait then now + wait else now
  else now

/-- Model of `deque.append` on a deque constructed with
`maxlen = calls`: appending to a full deque discards from the left. -/
def deque_append (maxlen : Int) (timestamps : List ℚ) (t : ℚ) : List ℚ :=
  let ts2 := timestamps ++ [t]
  if (ts2.length : Int) > maxlen then ts2.drop ((ts2.length : Int) - maxlen).toNat
  else ts2

/-- Model of one pass through the rate-limiting wrapper: clean expired
timestamps, wait if the window is full, record the post-wait time.
Returns the time at which the call proceeds and the new deque. -/
def acquire (calls : Int) (period : ℚ) (timestamps : List ℚ) (now : ℚ) :
    ℚ × List ℚ :=
  let ts1 := clean_expired period now timestamps
  let now2 := wait_if_needed calls period ts1 now
  (now2, deque_append calls ts1 now2)

/-- C2: timestamps older than `now - period` are dropped first; with the
window still holding exactly `calls` fresh timestamps, the next
acquisition computes `wait = oldest + period - now`, suspends for that
(positive) time, and records its own (post-wait) timestamp — so the
`(calls+1)`-th acquisition within the period resumes exactly when the
oldest recorded acquisition exits the window, never earlier. -/
theorem C2_rate_limiter_blocks (calls : Int) (period : ℚ) (t0 now : ℚ)
    (rest : List ℚ)
    (hcalls : 1 ≤ calls) (hperiod : 0 < period)
    (hlen : ((t0 :: rest).length : Int) = calls)
    (hwindow : ∀ t ∈ t0 :: rest, now - period < t ∧ t ≤ now) :
    clean_expired period now (t0 :: rest) = t0 :: rest ∧
    (acquire calls period (t0 :: rest) now).1 = t0 + period ∧
    now < (acquire calls period (t0 :: rest) now).1 ∧
    (acquire calls period (t0 :: rest) now).2 =
      deque_append calls (t0 :: rest) (t0 + period) := by
  have ht0 : now - period < t0 := (hwindow t0 (List.mem_cons_self t0 rest)).1
  have hclean : clean_expired period now (t0 :: rest) = t0 :: rest := by
    unfold clean_expired
    rw [List.dropWhile_cons]
    simp [not_le.mpr (by linarith : now - period < t0)]
  have hwaitpos : 0 < t0 + period - now := by linarith
  have hwait : wait_if_needed calls period (t0 :: rest) now = t0 + period := by
    unfold wait_if_needed
    rw [if_pos (le_of_eq hlen.symm)]
    simp only [hwaitpos, if_pos]
    ring
  refine ⟨hclean, ?_, ?_, ?_⟩
  · simp only [acquire, hclean, hwait]
  · simp only [acquire, hclean, hwait]
    linarith
  · simp only [acquire, hclean, hwait]

/-- Witness for C2: `calls = 2`, `period = 5`, a full window `[1, 2]`,
current time `3`; the third acquisition resumes at `1 + 5 = 6`. -/
theorem C2_rate_limiter_blocks_witness :
    clean_expired 5 3 [1, 2] = [1, 2] ∧
    (acquire 2 5 [1, 2] 3).1 = 1 + 5 ∧
    (3 : ℚ) < (acquire 2 5 [1, 2] 3).1 ∧
    (acquire 2 5 [1, 2] 3).2 = deque_append 2 [1, 2] (1 + 5) :=
  C2_rate_limiter_blocks 2 5 1 3 [2] (by decide) (by norm_num)
    (by norm_num)
    (by
      intro t ht
      rcases List.mem_cons.mp ht with h1 | h2
      · subst h1; constructor <;> norm_num
      · rcases List.mem_cons.mp h2 with h3 | h4
        · subst h3; constructor <;> norm_num
        · cases h4)

/-! ## `RateLimiter.limit` configuration handling -/

/-- The configuration fields `RateLimiter.limit` reads from
`default_config` (aioarxiv/config.py). -/
structure ArxivConfig where
  rate_limit_calls : Int
  rate_limit_period : ℚ
  page_size : Int
  deriving Repr, DecidableEq

/-- The class-level state `limit(calls, period)` installs. -/
structure RateLimitSetup where
  calls : Int
  period : ℚ
  deque_maxlen : Int
  semaphore_size : Int
  deriving Repr, DecidableEq

/-- Model of `RateLimiter.limit(calls, period)` before it returns the
decorator: `cls._calls = calls or default_config.rate_limit_calls` (so a
falsy `0` silently falls back to the config default and a negative value
is kept), likewise for `_period`; then
`cls.timestamps = deque(maxlen=cls._calls)` and
`cls._semaphore = Semaphore(cls._calls)`, both of which raise a builtin
`ValueError` for a negative size.  No other validation is performed. -/
def RateLimiter_limit (calls : Option Int) (period : Option ℚ) (cfg : ArxivConfig) :
    Except PyError RateLimitSetup :=
  let c : Int :=
    match calls with
    | some v => if v = 0 then cfg.rate_limit_calls else v
    | none => cfg.rate_limit_calls
  let p : ℚ :=
    match period with
    | some v => if v = 0 then cfg.rate_limit_period else v
    | none => cfg.rate_limit_period
  if c < 0 then Except.error PyError.valueError
  else Except.ok ⟨c, p, c, c⟩

/-! ## XML model (xml.etree.ElementTree as used by aioarxiv/utils/parser.py)

An element carries a (namespace-resolved) tag, an attribute mapping,
optional text, and children.  `eid` models Python object identity
(`id(element)`): the source compares elements with `!=`, which
`ElementTree` elements resolve by identity. -/

/-- Model of an `ElementTree` element. -/
inductive XmlElem : Type where
  | node (tag : String) (attrs : List (String × String)) (text : Option String)
      (eid : Nat) (children : List XmlElem)
  deriving Repr

def XmlElem.tag : XmlElem → String
  | .node t _ _ _ _ => t

def XmlElem.attrs : XmlElem → List (String × String)
  | .node _ a _ _ _ => a

def XmlElem.text : XmlElem → Option String
  | .node _ _ x _ _ => x

def XmlElem.eid : XmlElem → Nat
  | .node _ _ _ i _ => i

def XmlElem.children : XmlElem → List XmlElem
  | .node _ _ _ _ c => c

/-- Model of `element.find(tag, NS)`: first direct child with the tag. -/
def XmlElem.find (e : XmlElem) (t : String) : Option XmlElem :=
  e.children.find? (fun c => c.tag == t)

/-- Model of `element.findall(tag, NS)`: all direct children with the tag. -/
def XmlElem.findall (e : XmlElem) (t : String) : List XmlElem :=
  e.children.filter (fun c => c.tag == t)

/-- Model of `element.attrib.get(key)` / `key in element.attrib`. -/
def XmlElem.getAttr (e : XmlElem) (key : String) : Option String :=
  (e.attrs.find? (fun kv => kv.1 == key)).map (fun kv => kv.2)

/-- Well-formedness of an object tree: direct children are pairwise
distinct Python objects. -/
def XmlElem.distinctChildren (e : XmlElem) : Prop :=
  (e.children.map XmlElem.eid).Nodup

instance (e : XmlElem) : Decidable e.distinctChildren := by
  unfold XmlElem.distinctChildren
  exact List.nodupDecidable _

/-! ## Python `int(...)` -/

/-- Leading/trailing whitespace stripping performed by `int(str)`. -/
def stripSpaces (cs : List Char) : List Char :=
  ((cs.dropWhile Char.isWhitespace).reverse.dropWhile Char.isWhitespace).reverse

/-- Digit-string value, `none` when empty or a non-digit appears. -/
def digitsVal (cs : List Char) : Option Nat :=
  match cs with
  | [] => none
  | _ =>
      if cs.all Char.isDigit then
        some (cs.foldl (fun n c => 10 * n + (c.toNat - 48)) 0)
      else none

/-- Model of Python `int(s)`: optional surrounding whitespace, optional
sign, decimal digits; anything else raises `ValueError` (modelled as
`none`). -/
def pyParseInt (s : String) : Option Int :=
  match stripSpaces s.toList with
  | '+' :: cs => (digitsVal cs).map (fun n => (n : Int))
  | '-' :: cs => (digitsVal cs).map (fun n => -(n : Int))
  | cs => (digitsVal cs).map (fun n => (n : Int))

/-! ## `RootParser` (aioarxiv/utils/parser.py) -/

/-- Model of `RootParser.parse_total_result`: a missing
`opensearch:totalResults` child or missing text raises `ParserException`;
otherwise the text goes through `int(...)`, whose failure is an uncaught
builtin `ValueError`. -/
def parse_total_result (root : XmlElem) : Except PyError Int :=
  match root.find "opensearch:totalResults" with
  | none => Except.error PyError.parserException
  | some total_element =>
      match total_element.text with
      | none => Except.error PyError.parserException
      | some txt =>
          match pyParseInt txt with
          | some n => Except.ok n
          | none => Except.error PyError.valueError

/-- Model of `RootParser.build_search_result`: a `SearchResult` with an
empty paper list, page 1, `has_next=False` and a fresh `Metadata`
(both timestamps default to the construction instant `now`,
`missing_results = 0`, `pagesize = 0`, `source = "arxiv"`). -/
def build_search_result (now : ℚ) (root : XmlElem) (query_params : SearchParams) :
    Except PyError SearchResult :=
  match parse_total_result root with
  | Except.error e => Except.error e
  | Except.ok n =>
      Except.ok ⟨[], n, 1, false, query_params, ⟨now, some now, 0, 0, "arxiv"⟩⟩

/-! ## `PaperParser.parse_categories` -/

/-- Model of `PrimaryCategory`. -/
structure PrimaryCategory where
  term : String
  scheme : Option String
  label : Option String
  deriving Repr, DecidableEq

/-- Model of `Category`. -/
structure Category where
  primary : PrimaryCategory
  secondary : List String
  deriving Repr, DecidableEq

/-- Model of the inner `parse_primary`: prefer the dedicated
`arxiv:primary_category` child; if the child is absent or has no `term`
attribute, fall back to the placeholder `{term: "unknown"}`. -/
def parse_primary (entry : XmlElem) : PrimaryCategory :=
  match entry.find "arxiv:primary_category" with
  | none => ⟨"unknown", none, none⟩
  | some primary_elem =>
      match primary_elem.getAttr "term" with
      | none => ⟨"unknown", none, none⟩
      | some t => ⟨t, primary_elem.getAttr "scheme", primary_elem.getAttr "label"⟩

/-- Filter condition of the `parse_secondary` list comprehension:
`"term" in c.attrib and c != primary_elem`.  Python `!=` on
`ElementTree` elements is identity comparison, modelled through `eid`;
`c != None` is always true. -/
def secondary_cond (primary_elem : Option XmlElem) (c : XmlElem) : Bool :=
  (c.getAttr "term").isSome &&
  match primary_elem with
  | none => true
  | some p => c.eid != p.eid

/-- Model of the inner `parse_secondary`: the terms of the
`atom:category` children satisfying `secondary_cond`. -/
def parse_secondary (entry : XmlElem) : List String :=
  ((entry.findall "atom:category").filter
      (secondary_cond (entry.find "arxiv:primary_category"))).filterMap
    (fun c => c.getAttr "term")

/-- Model of `PaperParser.parse_categories`. -/
def parse_categories (entry : XmlElem) : Category :=
  ⟨parse_primary entry, parse_secondary entry⟩

/-- Secondary categories as the spec words them (for claim C4): every
category element whose term differs from the primary's term. -/
def claim_secondary (entry : XmlElem) : List String :=
  ((entry.findall "atom:category").filterMap (fun c => c.getAttr "term")).filter
    (fun t => t ≠ (parse_primary entry).term)

/-! ### Claim C7 -/

/-- C7: `RateLimiter.limit` performs no configuration validation at all.
`calls = 1, period = -1` installs a limiter whose window is negative
(every timestamp is instantly expired, so the limiter never blocks), and
`calls = 0` silently falls back to the config default instead of
failing; no `InvalidConfiguration` error exists on this path.  (Only a
negative `calls` happens to fail, via `deque(maxlen=...)` raising a
builtin `ValueError`.) -/
theorem C7_limit_accepts_invalid_config :
    RateLimiter_limit (some 1) (some (-1)) ⟨5, 3, 10⟩ = Except.ok ⟨1, -1, 1, 1⟩ ∧
    RateLimiter_limit (some 0) (some 1) ⟨5, 3, 10⟩ = Except.ok ⟨5, 1, 5, 5⟩ ∧
    RateLimiter_limit (some (-2)) (some 1) ⟨5, 3, 10⟩ =
      Except.error PyError.valueError := by
  refine ⟨rfl, rfl, rfl⟩

/-! ### Claim C3 -/

/-- Helper lemma: `(l.filter (fun c => (f c).isSome)).filterMap f` drops
nothing that `filterMap f` would keep. -/
theorem filter_isSome_filterMap {α β : Type} (l : List α) (f : α → Option β) :
    (l.filter (fun c => (f c).isSome)).filterMap f = l.filterMap f := by
  induction l with
  | nil => rfl
  | cons a l ih =>
      cases hf : f a with
      | none => simp [List.filter_cons, List.filterMap_cons, hf, ih]
      | some b => simp [List.filter_cons, List.filterMap_cons, hf, ih]

/-- A response document whose total-results text is not an integer. -/
def c3_bad_doc : XmlElem :=
  XmlElem.node "feed" [] none 0
    [XmlElem.node "opensearch:totalResults" [] (some "not-a-number") 1 []]

/-- Counterexample to C3: a present total-results element with
non-integer text fails with Python's builtin `ValueError` (from
`int(...)`), not with a `ParseError`. -/
theorem C3_counterexample :
    parse_total_result c3_bad_doc = Except.error PyError.valueError ∧
    parse_total_result c3_bad_doc ≠ Except.error PyError.parserException := by
  constructor
  · rfl
  · intro h
    exact PyError.noConfusion (Except.error.inj h)

/-- C3 (amended): a missing total-results element or missing text fails
with `ParseError`; non-integer text fails with a builtin `ValueError`
instead; in every failure case no `SearchResult` is built — the count is
never defaulted. -/
theorem C3_total_result_failure_modes (root : XmlElem) (now : ℚ)
    (params : SearchParams) :
    (root.find "opensearch:totalResults" = none →
      parse_total_result root = Except.error PyError.parserException) ∧
    (∀ el, root.find "opensearch:totalResults" = some el → el.text = none →
      parse_total_result root = Except.error PyError.parserException) ∧
    (∀ el t, root.find "opensearch:totalResults" = some el → el.text = some t →
      pyParseInt t = none →
      parse_total_result root = Except.error PyError.valueError) ∧
    (∀ e, parse_total_result root = Except.error e →
      build_search_result now root params = Except.error e) := by
  refine ⟨?_, ?_, ?_, ?_⟩
  · intro h
    unfold parse_total_result
    rw [h]
  · intro el h ht
    simp only [parse_total_result, h, ht]
  · intro el t h ht hp
    simp only [parse_total_result, h, ht, hp]
  · intro e h
    unfold build_search_result
    rw [h]

/-- A response document with no total-results element at all. -/
def c3_missing_doc : XmlElem :=
  XmlElem.node "feed" [] none 0 [XmlElem.node "atom:entry" [] none 1 []]

/-- Witness for C3 (amended): the absent element is a `ParseError`, the
non-integer text a `ValueError`, and neither builds a result. -/
theorem C3_total_result_failure_modes_witness :
    parse_total_result c3_missing_doc = Except.error PyError.parserException ∧
    build_search_result 0 c3_bad_doc ⟨"q", none, some 0, none, none, none⟩ =
      Except.error PyError.valueError :=
  ⟨(C3_total_result_failure_modes c3_missing_doc 0
      ⟨"q", none, some 0, none, none, none⟩).1 rfl,
   (C3_total_result_failure_modes c3_bad_doc 0
      ⟨"q", none, some 0, none, none, none⟩).2.2.2 PyError.valueError rfl⟩

/-! ### Claim C10 -/

/-- C10: whatever the response document contains — however many entry
elements — a successfully built `SearchResult` from
`RootParser.build_search_result` has no papers, page 1 and
`has_next = False`; the per-page results the client assembles from this
parser therefore never carry parsed papers. -/
theorem C10_build_search_result_empty (root : XmlElem) (now : ℚ)
    (params : SearchParams) (r : SearchResult)
    (h : build_search_result now root params = Except.ok r) :
    r.papers = [] ∧ r.papers_count = 0 ∧ r.page = 1 ∧ r.has_next = false := by
  unfold build_search_result at h
  cases hp : parse_total_result root with
  | error e =>
      rw [hp] at h
      exact Except.noConfusion h
  | ok n =>
      rw [hp] at h
      cases Except.ok.inj h
      exact ⟨rfl, rfl, rfl, rfl⟩

/-- A response document with a valid total and two entry elements. -/
def c10_doc : XmlElem :=
  XmlElem.node "feed" [] none 0
    [XmlElem.node "opensearch:totalResults" [] (some "218712") 1 [],
     XmlElem.node "atom:entry" [] none 2 [],
     XmlElem.node "atom:entry" [] none 3 []]

def c10_params : SearchParams :=
  ⟨"all:electron", none, some 0, some 10, none, none⟩

def c10_result : SearchResult :=
  ⟨[], 218712, 1, false, c10_params, ⟨0, some 0, 0, 0, "arxiv"⟩⟩

/-- Witness for C10: a document carrying two entry elements still
produces an empty paper list. -/
theorem C10_build_search_result_empty_witness :
    c10_result.papers = [] ∧ c10_result.papers_count = 0 ∧
    c10_result.page = 1 ∧ c10_result.has_next = false :=
  C10_build_search_result_empty c10_doc 0 c10_params c10_result rfl

/-! ### Claim C4 -/

/-- The entry of the C4 counterexample: a dedicated primary category
`cs.AI` and an `atom:category` element with the same term. -/
def c4_entry : XmlElem :=
  XmlElem.node "atom:entry" [] none 0
    [XmlElem.node "arxiv:primary_category" [("term", "cs.AI")] none 1 [],
     XmlElem.node "atom:category" [("term", "cs.AI")] none 2 []]

/-- Counterexample to C4: the identity filter `c != primary_elem` never
matches an `atom:category` element (the primary lives under a different
tag), so a category term equal to the primary's term is NOT excluded:
the code yields `["cs.AI"]` where the claim demands `[]`. -/
theorem C4_counterexample :
    (parse_categories c4_entry).primary.term = "cs.AI" ∧
    (parse_categories c4_entry).secondary = ["cs.AI"] ∧
    claim_secondary c4_entry = [] := by
  refine ⟨rfl, rfl, rfl⟩

/-- C4 (amended): a structurally absent primary-category element yields
the synthetic placeholder `{term: "unknown"}` without error; the
secondary categories are the terms of ALL `atom:category` elements
carrying a `term` attribute — including any whose term equals the
primary's term, since the `c != primary_elem` identity check can never
exclude an element found under a different tag. -/
theorem C4_categories_amended (entry : XmlElem)
    (hwf : entry.distinctChildren) :
    (entry.find "arxiv:primary_category" = none →
      (parse_categories entry).primary = ⟨"unknown", none, none⟩) ∧
    (parse_categories entry).secondary =
      (entry.findall "atom:category").filterMap (fun c => c.getAttr "term") := by
  constructor
  · intro h
    show parse_primary entry = (⟨"unknown", none, none⟩ : PrimaryCategory)
    unfold parse_primary
    rw [h]
  · show parse_secondary entry = _
    unfold parse_secondary
    cases hp : entry.find "arxiv:primary_category" with
    | none =>
        have hcond : ∀ c ∈ entry.findall "atom:category",
            secondary_cond none c = (c.getAttr "term").isSome := by
          intro c _
          simp [secondary_cond]
        rw [List.filter_congr hcond]
        exact filter_isSome_filterMap _ _
    | some p =>
        have hp2 : List.find? (fun c => c.tag == "arxiv:primary_category")
            entry.children = some p := hp
        have hpmem : p ∈ entry.children := List.mem_of_find?_eq_some hp2
        have hptagb : (p.tag == "arxiv:primary_category") = true := by
          have hb := List.find?_some hp2
          simpa using hb
        have hptag : p.tag = "arxiv:primary_category" := eq_of_beq hptagb
        have hcond : ∀ c ∈ entry.findall "atom:category",
            secondary_cond (some p) c = (c.getAttr "term").isSome := by
          intro c hc
          have hc2 : c ∈ List.filter (fun c => c.tag == "atom:category")
              entry.children := hc
          have hcmem : c ∈ entry.children := List.mem_of_mem_filter hc2
          have hctagb : (c.tag == "atom:category") = true := by
            have hb := List.of_mem_filter hc2
            simpa using hb
          have hctag : c.tag = "atom:category" := eq_of_beq hctagb
          have hne : c.eid ≠ p.eid := by
            intro he
            have hcp : c = p := List.inj_on_of_nodup_map hwf hcmem hpmem he
            rw [hcp, hptag] at hctag
            exact absurd hctag (by decide)
          simp [secondary_cond, bne_iff_ne, hne]
        rw [List.filter_congr hcond]
        exact filter_isSome_filterMap _ _

/-- The entry of the C4 witness: no primary-category element, two
category elements of which only one carries a term. -/
def c4_wit_entry : XmlElem :=
  XmlElem.node "atom:entry" [] none 0
    [XmlElem.node "atom:category" [("term", "cs.LG")] none 1 [],
     XmlElem.node "atom:category" [("label", "x")] none 2 []]

/-- Witness for C4 (amended): absent primary falls back to the
placeholder, and the secondary list keeps every term-carrying category. -/
theorem C4_categories_amended_witness :
    (parse_categories c4_wit_entry).primary = ⟨"unknown", none, none⟩ ∧
    (parse_categories c4_wit_entry).secondary =
      (c4_wit_entry.findall "atom:category").filterMap (fun c => c.getAttr "term") :=
  ⟨(C4_categories_amended c4_wit_entry (by decide)).1 rfl,
   (C4_categories_amended c4_wit_entry (by decide)).2⟩

/-! ## `ArxivClient._build_query_params` (claim C5) -/

/-- The outbound parameter mapping built by `_build_query_params`.
`search_query`, `start` and `max_results` keys are always present;
`id_list`, `sortBy` and `sortOrder` only conditionally (modelled as
`Option`). -/
structure QueryParams where
  search_query : String
  start : Int
  max_results : Option Int
  id_list : Option String
  sortBy : Option String
  sortOrder : Option String
  deriving Repr, DecidableEq

/-- Model of `ArxivClient._build_query_params`: the dict always carries
`search_query = params.query`; `id_list` is added whenever
`params.id_list` is truthy (non-`None` and non-empty), comma-joined;
sort keys are added when set. -/
def build_query_params (params : SearchParams) : QueryParams :=
  { search_query := params.query
  , start := (params.start).getD 0
  , max_results := params.max_results
  , id_list :=
      match params.id_list with
      | some ids => if ids ≠ [] then some (String.intercalate "," ids) else none
      | none => none
  , sortBy := params.sort_by
  , sortOrder := params.sort_order }

/-- A `SearchParams` with BOTH a query string and an id list. -/
def c5_params : SearchParams :=
  ⟨"electron", some ["1234.5678", "2401.00001"], some 0, some 10, none, none⟩

/-- Counterexample to C5: `SearchParams` accepts a query string together
with an id list (there is no mutual-exclusion validator), and the built
outbound parameters then contain BOTH `search_query` and `id_list`. -/
theorem C5_counterexample :
    searchParamsValid c5_params ∧
    (build_query_params c5_params).search_query = "electron" ∧
    (build_query_params c5_params).id_list = some "1234.5678,2401.00001" := by
  refine ⟨by decide, rfl, rfl⟩

/-- C5 (amended): the query string is always set and always emitted as
`search_query`; the id list is independent of it and is emitted as
`id_list` exactly when it is non-`None` and non-empty — the two
parameters are not mutually exclusive and no XOR constraint exists. -/
theorem C5_query_params_not_exclusive (p : SearchParams) :
    (build_query_params p).search_query = p.query ∧
    ((build_query_params p).id_list.isSome ↔ ∃ l, p.id_list = some l ∧ l ≠ []) := by
  constructor
  · rfl
  · show (match p.id_list with
      | some ids => if ids ≠ [] then some (String.intercalate "," ids) else none
      | none => none).isSome ↔ ∃ l, p.id_list = some l ∧ l ≠ []
    cases hl : p.id_list with
    | none => simp
    | some l =>
        by_cases he : l = []
        · subst he
          simp
        · simp [he]

/-! ## `Metadata` duration fields (claim C8) -/

/-- Rounding to three decimal places, as `round(x, 3)` does on the
rational values in play. -/
def round3 (q : ℚ) : ℚ :=
  ((round (q * 1000) : ℤ) : ℚ) / 1000

/-- Model of the `Metadata.duration_seconds` computed field:
`round((end_time - start_time).total_seconds(), 3)`.  `none` models the
`TypeError` the subtraction would raise on a missing end time. -/
def Metadata.duration_seconds (m : Metadata) : Option ℚ :=
  m.end_time.map (fun e => round3 (e - m.start_time))

/-- Model of the `Metadata.duration_ms` computed field:
`round(delta.total_seconds() * 1000, 3)`. -/
def Metadata.duration_ms (m : Metadata) : Option ℚ :=
  m.end_time.map (fun e => round3 ((e - m.start_time) * 1000))

/-- Counterexample to C8: nothing clamps the durations — a metadata
record whose end time precedes its start time has strictly negative
`duration_seconds` and `duration_ms`. -/
theorem C8_counterexample :
    Metadata.duration_seconds ⟨10, some 4, 0, 0, "arxiv"⟩ = some (-6) ∧
    Metadata.duration_ms ⟨10, some 4, 0, 0, "arxiv"⟩ = some (-6000) ∧
    (-6 : ℚ) < 0 ∧ (-6000 : ℚ) < 0 := by
  refine ⟨?_, ?_, by norm_num, by norm_num⟩
  · show some (round3 ((4 : ℚ) - 10)) = some (-6)
    have : ((4 : ℚ) - 10) * 1000 = ((-6000 : ℤ) : ℚ) := by norm_num
    unfold round3
    rw [this, round_intCast]
    norm_num
  · show some (round3 (((4 : ℚ) - 10) * 1000)) = some (-6000)
    have : (((4 : ℚ) - 10) * 1000) * 1000 = ((-6000000 : ℤ) : ℚ) := by norm_num
    unfold round3
    rw [this, round_intCast]
    norm_num

theorem round3_nonneg (q : ℚ) (h : 0 ≤ q) : 0 ≤ round3 q := by
  unfold round3
  have h1 : (0 : ℤ) ≤ round (q * 1000) := by
    rw [round_eq]
    refine Int.le_floor.mpr ?_
    push_cast
    linarith
  have h2 : (0 : ℚ) ≤ ((round (q * 1000) : ℤ) : ℚ) := by exact_mod_cast h1
  exact div_nonneg h2 (by norm_num)

/-- C8 (amended): when the end time is present, `duration_seconds` is
`end − start` rounded to 3 decimals and `duration_ms` is
`(end − start) × 1000` rounded to 3 decimals; they are non-negative
whenever `end ≥ start`, but nothing enforces that ordering (see the
counterexample), and a missing end time fails the computation instead
of yielding zero. -/
theorem C8_duration_amended (m : Metadata) (e : ℚ) (h : m.end_time = some e) :
    Metadata.duration_seconds m = some (round3 (e - m.start_time)) ∧
    Metadata.duration_ms m = some (round3 ((e - m.start_time) * 1000)) ∧
    (m.start_time ≤ e →
      (0 ≤ round3 (e - m.start_time) ∧ 0 ≤ round3 ((e - m.start_time) * 1000))) := by
  refine ⟨?_, ?_, ?_⟩
  · unfold Metadata.duration_seconds
    rw [h]
    rfl
  · unfold Metadata.duration_ms
    rw [h]
    rfl
  · intro hle
    constructor
    · exact round3_nonneg _ (by linarith)
    · exact round3_nonneg _ (by nlinarith)

/-- Witness for C8 (amended): a one-second span yields exactly one
second and a thousand milliseconds, both non-negative. -/
theorem C8_duration_amended_witness :
    Metadata.duration_seconds ⟨2, some 3, 0, 0, "arxiv"⟩ =
      some (round3 ((3 : ℚ) - 2)) ∧
    Metadata.duration_ms ⟨2, some 3, 0, 0, "arxiv"⟩ =
      some (round3 (((3 : ℚ) - 2) * 1000)) ∧
    ((2 : ℚ) ≤ 3 →
      (0 ≤ round3 ((3 : ℚ) - 2) ∧ 0 ≤ round3 (((3 : ℚ) - 2) * 1000))) :=
  C8_duration_amended ⟨2, some 3, 0, 0, "arxiv"⟩ 3 rfl

/-! ## `ArxivClient.aggregate_search_results` (claim C6)

Python `min(...)` / `max(...)` over the non-empty result list are
modelled as left folds seeded with the first element; `max(gen,
default=None)` over the optional end times as an optional fold. -/

def fold_min {α : Type} [LinearOrder α] (x : α) (xs : List α) : α :=
  xs.foldl min x

def fold_max {α : Type} [LinearOrder α] (x : α) (xs : List α) : α :=
  xs.foldl max x

def opt_max {α : Type} [LinearOrder α] (xs : List α) : Option α :=
  xs.foldl
    (fun acc y =>
      match acc with
      | none => some y
      | some m => some (max m y))
    none

theorem fold_max_is_ub {α : Type} [LinearOrder α] (x : α) (xs : List α) :
    ∀ y ∈ x :: xs, y ≤ fold_max x xs := by
  induction xs generalizing x with
  | nil =>
      intro y hy
      rcases List.mem_cons.mp hy with h | h
      · subst h; exact le_refl _
      · cases h
  | cons a xs ih =>
      intro y hy
      have hstep : fold_max x (a :: xs) = fold_max (max x a) xs := rfl
      rw [hstep]
      rcases List.mem_cons.mp hy with h | h
      · subst h
        exact le_trans (le_max_left y a) (ih (max y a) (max y a)
          (List.mem_cons_self _ _))
      · rcases List.mem_cons.mp h with h1 | h2
        · subst h1
          exact le_trans (le_max_right x y) (ih (max x y) (max x y)
            (List.mem_cons_self _ _))
        · exact ih (max x a) y (List.mem_cons_of_mem _ h2)

theorem fold_max_mem {α : Type} [LinearOrder α] (x : α) (xs : List α) :
    fold_max x xs ∈ x :: xs := by
  induction xs generalizing x with
  | nil => exact List.mem_cons_self _ _
  | cons a xs ih =>
      have hstep : fold_max x (a :: xs) = fold_max (max x a) xs := rfl
      rw [hstep]
      rcases List.mem_cons.mp (ih (max x a)) with h1 | h2
      · rcases max_choice x a with hx | ha
        · rw [h1, hx]; exact List.mem_cons_self _ _
        · rw [h1, ha]; exact List.mem_cons_of_mem _ (List.mem_cons_self _ _)
      · exact List.mem_cons_of_mem _ (List.mem_cons_of_mem _ h2)

theorem fold_min_is_lb {α : Type} [LinearOrder α] (x : α) (xs : List α) :
    ∀ y ∈ x :: xs, fold_min x xs ≤ y := by
  induction xs generalizing x with
  | nil =>
      intro y hy
      rcases List.mem_cons.mp hy with h | h
      · subst h; exact le_refl _
      · cases h
  | cons a xs ih =>
      intro y hy
      have hstep : fold_min x (a :: xs) = fold_min (min x a) xs := rfl
      rw [hstep]
      rcases List.mem_cons.mp hy with h | h
      · subst h
        exact le_trans (ih (min y a) (min y a) (List.mem_cons_self _ _))
          (min_le_left y a)
      · rcases List.mem_cons.mp h with h1 | h2
        · subst h1
          exact le_trans (ih (min x y) (min x y) (List.mem_cons_self _ _))
            (min_le_right x y)
        · exact ih (min x a) y (List.mem_cons_of_mem _ h2)

theorem fold_min_mem {α : Type} [LinearOrder α] (x : α) (xs : List α) :
    fold_min x xs ∈ x :: xs := by
  induction xs generalizing x with
  | nil => exact List.mem_cons_self _ _
  | cons a xs ih =>
      have hstep : fold_min x (a :: xs) = fold_min (min x a) xs := rfl
      rw [hstep]
      rcases List.mem_cons.mp (ih (min x a)) with h1 | h2
      · rcases min_choice x a with hx | ha
        · rw [h1, hx]; exact List.mem_cons_self _ _
        · rw [h1, ha]; exact List.mem_cons_of_mem _ (List.mem_cons_self _ _)
      · exact List.mem_cons_of_mem _ (List.mem_cons_of_mem _ h2)

theorem opt_max_go {α : Type} [LinearOrder α] (xs : List α) (m : α) :
    xs.foldl
      (fun acc y =>
        match acc with
        | none => some y
        | some mm => some (max mm y))
      (some m) = some (fold_max m xs) := by
  induction xs generalizing m with
  | nil => rfl
  | cons a xs ih => exact ih (max m a)

theorem opt_max_cons {α : Type} [LinearOrder α] (x : α) (xs : List α) :
    opt_max (x :: xs) = some (fold_max x xs) := by
  unfold opt_max
  exact opt_max_go xs x

theorem opt_max_spec {α : Type} [LinearOrder α] (xs : List α) :
    (opt_max xs = none ↔ xs = []) ∧
    (∀ e, opt_max xs = some e → e ∈ xs ∧ ∀ y ∈ xs, y ≤ e) := by
  cases xs with
  | nil => exact ⟨by simp [opt_max], fun e he => Option.noConfusion he⟩
  | cons x xs =>
      rw [opt_max_cons]
      constructor
      · constructor
        · intro h; exact Option.noConfusion h
        · intro h; exact List.noConfusion h
      · intro e he
        have : fold_max x xs = e := Option.some.inj he
        subst this
        exact ⟨fold_max_mem x xs, fold_max_is_ub x xs⟩

/-- Model of `ArxivClient.aggregate_search_results`: an empty input
raises `ValueError`; otherwise papers are merged with
`_merge_paper_lists`, `total_result` and `page` are maxima across the
inputs, `has_next` is the disjunction, the metadata combines min of
start times, max of the non-null end times (or `None`), sums of
missing-result counts and page sizes, and the first input's source;
the query params are the first input's with an updated `max_results`
and minimal `start`.  (`astimezone` does not change an instant and is
dropped.) -/
def aggregate_search_results (results : List SearchResult) :
    Except PyError SearchResult :=
  match results with
  | [] => Except.error PyError.valueError
  | base :: rest =>
      Except.ok
        ⟨merge_paper_lists ((base :: rest).map (fun r => r.papers)) true,
         fold_max base.total_result (rest.map (fun r => r.total_result)),
         fold_max base.page (rest.map (fun r => r.page)),
         (base :: rest).any (fun r => r.has_next),
         { base.query_params with
             max_results := some
               ((merge_paper_lists ((base :: rest).map (fun r => r.papers))
                   true).length : Int)
           , start := some (fold_min ((base.query_params.start).getD 0)
               (rest.map (fun r => (r.query_params.start).getD 0))) },
         ⟨fold_min base.metadata.start_time
            (rest.map (fun r => r.metadata.start_time)),
          opt_max ((base :: rest).filterMap (fun r => r.metadata.end_time)),
          ((base :: rest).map (fun r => r.metadata.missing_results)).sum,
          ((base :: rest).map (fun r => r.metadata.pagesize)).sum,
          base.metadata.source⟩⟩

/-- C6: aggregating a non-empty list of page results succeeds and the
aggregate's `total_result` and `page` are the (attained) maxima of the
inputs, `has_next` holds iff some input has it, the metadata start time
is the (attained) minimum of the input start times, the end time is the
maximum of the non-null input end times (absent iff all are absent),
`missing_results` and `pagesize` are the input sums, and the source is
the first input's source. -/
theorem C6_aggregate_characterization (results : List SearchResult)
    (base : SearchResult) (rest : List SearchResult)
    (h : results = base :: rest) :
    ∃ agg, aggregate_search_results results = Except.ok agg ∧
      (∀ s ∈ results, s.total_result ≤ agg.total_result) ∧
      agg.total_result ∈ results.map (fun r => r.total_result) ∧
      (∀ s ∈ results, s.page ≤ agg.page) ∧
      agg.page ∈ results.map (fun r => r.page) ∧
      (agg.has_next = true ↔ ∃ s ∈ results, s.has_next = true) ∧
      (∀ s ∈ results, agg.metadata.start_time ≤ s.metadata.start_time) ∧
      agg.metadata.start_time ∈ results.map (fun r => r.metadata.start_time) ∧
      (agg.metadata.end_time = none ↔
        ∀ s ∈ results, s.metadata.end_time = none) ∧
      (∀ e, agg.metadata.end_time = some e →
        (∃ s ∈ results, s.metadata.end_time = some e) ∧
        ∀ s ∈ results, ∀ x, s.metadata.end_time = some x → x ≤ e) ∧
      agg.metadata.missing_results =
        (results.map (fun r => r.metadata.missing_results)).sum ∧
      agg.metadata.pagesize = (results.map (fun r => r.metadata.pagesize)).sum ∧
      agg.metadata.source = base.metadata.source := by
  subst h
  refine ⟨_, rfl, ?_, ?_, ?_, ?_, ?_, ?_, ?_, ?_, ?_, rfl, rfl, rfl⟩
  · intro s hs
    show s.total_result ≤ fold_max base.total_result
      (rest.map (fun r => r.total_result))
    refine fold_max_is_ub _ _ _ ?_
    rcases List.mem_cons.mp hs with h1 | h2
    · subst h1; exact List.mem_cons_self _ _
    · exact List.mem_cons_of_mem _ (List.mem_map_of_mem _ h2)
  · show fold_max base.total_result (rest.map (fun r => r.total_result)) ∈ _
    rw [List.map_cons]
    exact fold_max_mem _ _
  · intro s hs
    show s.page ≤ fold_max base.page (rest.map (fun r => r.page))
    refine fold_max_is_ub _ _ _ ?_
    rcases List.mem_cons.mp hs with h1 | h2
    · subst h1; exact List.mem_cons_self _ _
    · exact List.mem_cons_of_mem _ (List.mem_map_of_mem _ h2)
  · show fold_max base.page (rest.map (fun r => r.page)) ∈ _
    rw [List.map_cons]
    exact fold_max_mem _ _
  · show ((base :: rest).any (fun r => r.has_next)) = true ↔ _
    rw [List.any_eq_true]
  · intro s hs
    show fold_min base.metadata.start_time
      (rest.map (fun r => r.metadata.start_time)) ≤ s.metadata.start_time
    refine fold_min_is_lb _ _ _ ?_
    rcases List.mem_cons.mp hs with h1 | h2
    · subst h1; exact List.mem_cons_self _ _
    · exact List.mem_cons_of_mem _ (List.mem_map_of_mem _ h2)
  · show fold_min base.metadata.start_time
      (rest.map (fun r => r.metadata.start_time)) ∈ _
    rw [List.map_cons]
    exact fold_min_mem _ _
  · show opt_max ((base :: rest).filterMap (fun r => r.metadata.end_time)) = none ↔ _
    rw [(opt_max_spec _).1, List.filterMap_eq_nil_iff]
  · intro e he
    have hspec := (opt_max_spec
      ((base :: rest).filterMap (fun r => r.metadata.end_time))).2 e he
    constructor
    · exact List.mem_filterMap.mp hspec.1
    · intro s hs x hx
      exact hspec.2 x (List.mem_filterMap.mpr ⟨s, hs, hx⟩)

/-- Two concrete page results for the C6 witness. -/
def c6_result1 : SearchResult :=
  ⟨[⟨⟨"a", "A", 1⟩⟩], 100, 1, true, c10_params, ⟨5, some 8, 0, 10, "arxiv"⟩⟩

def c6_result2 : SearchResult :=
  ⟨[⟨⟨"b", "B", 2⟩⟩], 80, 2, false, c10_params, ⟨3, some 11, 1, 10, "mirror"⟩⟩

/-- Witness for C6 at two concrete page results. -/
theorem C6_aggregate_characterization_witness :
    ∃ agg, aggregate_search_results [c6_result1, c6_result2] = Except.ok agg ∧
      (∀ s ∈ [c6_result1, c6_result2], s.total_result ≤ agg.total_result) ∧
      agg.total_result ∈ [c6_result1, c6_result2].map (fun r => r.total_result) ∧
      (∀ s ∈ [c6_result1, c6_result2], s.page ≤ agg.page) ∧
      agg.page ∈ [c6_result1, c6_result2].map (fun r => r.page) ∧
      (agg.has_next = true ↔ ∃ s ∈ [c6_result1, c6_result2], s.has_next = true) ∧
      (∀ s ∈ [c6_result1, c6_result2],
        agg.metadata.start_time ≤ s.metadata.start_time) ∧
      agg.metadata.start_time ∈
        [c6_result1, c6_result2].map (fun r => r.metadata.start_time) ∧
      (agg.metadata.end_time = none ↔
        ∀ s ∈ [c6_result1, c6_result2], s.metadata.end_time = none) ∧
      (∀ e, agg.metadata.end_time = some e →
        (∃ s ∈ [c6_result1, c6_result2], s.metadata.end_time = some e) ∧
        ∀ s ∈ [c6_result1, c6_result2], ∀ x,
          s.metadata.end_time = some x → x ≤ e) ∧
      agg.metadata.missing_results =
        ([c6_result1, c6_result2].map (fun r => r.metadata.missing_results)).sum ∧
      agg.metadata.pagesize =
        ([c6_result1, c6_result2].map (fun r => r.metadata.pagesize)).sum ∧
      agg.metadata.source = c6_result1.metadata.source :=
  C6_aggregate_characterization [c6_result1, c6_result2] c6_result1 [c6_result2] rfl

/-! ## `ArxivClient.search` pagination (claim C9) -/

/-- Model of the `needs_more` flag computed by
`_prepare_initial_search`: `max_results is not None and
max_results > len(result.papers) and total_result > len(result.papers)`. -/
def needs_more (max_results : Option Int) (received total : Int) : Bool :=
  match max_results with
  | none => false
  | some m => decide (received < m) && decide (received < total)

/-- Model of the `remaining_papers` computation in `search`:
`min((max_results - received) if max_results else total,
total - received)` — note Python truthiness: `max_results = 0` selects
the `else` branch. -/
def remaining_papers_calc (max_results : Option Int) (received total : Int) : Int :=
  min
    (match max_results with
     | some m => if m = 0 then total else m - received
     | none => total)
    (total - received)

/-- Model of the effective first-page size computed by
`_prepare_initial_search`:
`min(config.page_size, max_results or config.page_size)`. -/
def effective_page_size (page_size : Int) (max_results : Option Int) : Int :=
  min page_size
    (match max_results with
     | some m => if m = 0 then page_size else m
     | none => page_size)

/-- Model of `ArxivClient._generate_page_params`: split
`remaining_papers` positions starting at `base_start` into chunks of at
most `page_size`, keeping only non-empty chunks. -/
def generate_page_params (base_start remaining_papers page_size : Int) :
    List PageParam :=
  (List.range ((remaining_papers + page_size - 1).fdiv page_size).toNat).filterMap
    (fun (page : Nat) =>
      if base_start + (page : Int) * page_size <
          min (base_start + (page : Int) * page_size + page_size)
            (base_start + remaining_papers) then
        some ⟨base_start + (page : Int) * page_size,
          min (base_start + (page : Int) * page_size + page_size)
            (base_start + remaining_papers)⟩
      else none)

/-- The two shapes `search` can take after the first page. -/
inductive SearchPlan where
  | singlePage
  | multiPage (pages : List PageParam)
  deriving Repr, DecidableEq

/-- Model of the post-first-page control flow of `ArxivClient.search`:
return the first page when no more pages are needed or nothing remains,
otherwise fan out over `_generate_page_params` starting at
`(start or 0) + config.page_size`. -/
def search_plan (page_size : Int) (start : Option Int) (max_results : Option Int)
    (received total : Int) : SearchPlan :=
  if needs_more max_results received total = false then SearchPlan.singlePage
  else if remaining_papers_calc max_results received total ≤ 0 then
    SearchPlan.singlePage
  else
    SearchPlan.multiPage
      (generate_page_params ((start.getD 0) + page_size)
        (remaining_papers_calc max_results received total) page_size)

/-- Counterexample to C9: with a configured page size of 50,
`max_results = 30` (so an effective first-page size of 30), 10 papers
received out of 1000, the additional chunks start at
`start + config.page_size = 50`, not at
`start + effective_page_size = 30`. -/
theorem C9_counterexample :
    search_plan 50 (some 0) (some 30) 10 1000 =
      SearchPlan.multiPage [⟨50, 70⟩] ∧
    effective_page_size 50 (some 30) = 30 ∧
    (50 : Int) ≠ 0 + effective_page_size 50 (some 30) := by
  refine ⟨by decide, by decide, by decide⟩

theorem head_filterMap_range {β : Type} (n : Nat) (f : Nat → Option β) (y : β)
    (hn : 1 ≤ n) (h0 : f 0 = some y) :
    ((List.range n).filterMap f).head? = some y := by
  cases n with
  | zero => exact absurd hn (by omega)
  | succ k =>
      rw [List.range_succ_eq_map]
      simp [List.filterMap_cons, h0]

/-- C9 (amended): when the first page does not satisfy the request, the
remaining count is `min(max_results - received, total - received)`; it
is then strictly positive (the `≤ 0` early return is only reachable
when no more pages are needed, where the first page is returned
unchanged); the remaining range is split into page-sized chunks starting
at `start + config.page_size` (the CONFIGURED page size — not the
effective first-page size); and the chunks cover only the remaining
count, which never exceeds `max_results - received`. -/
theorem C9_search_plan_amended (page_size : Int) (start : Option Int)
    (m received total : Int)
    (hps : 1 ≤ page_size) (hrecv : 0 ≤ received)
    (hmore : needs_more (some m) received total = true) :
    remaining_papers_calc (some m) received total =
      min (m - received) (total - received) ∧
    0 < remaining_papers_calc (some m) received total ∧
    remaining_papers_calc (some m) received total ≤ m - received ∧
    (∀ ps2 st2 mr2 rc2 tt2, remaining_papers_calc mr2 rc2 tt2 ≤ 0 →
      search_plan ps2 st2 mr2 rc2 tt2 = SearchPlan.singlePage) ∧
    ∃ pages,
      search_plan page_size start (some m) received total =
        SearchPlan.multiPage pages ∧
      pages =
        generate_page_params (start.getD 0 + page_size)
          (remaining_papers_calc (some m) received total) page_size ∧
      pages.head?.map PageParam.start = some (start.getD 0 + page_size) ∧
      (∀ pp ∈ pages,
        start.getD 0 + page_size ≤ pp.start ∧
        pp.stop ≤ start.getD 0 + page_size +
          remaining_papers_calc (some m) received total) := by
  have hm1 := hmore
  unfold needs_more at hm1
  rw [Bool.and_eq_true, decide_eq_true_eq, decide_eq_true_eq] at hm1
  obtain ⟨hrm, hrt⟩ := hm1
  have hm0 : ¬m = 0 := by omega
  have hremeq : remaining_papers_calc (some m) received total =
      min (m - received) (total - received) := by
    show min (if m = 0 then total else m - received) (total - received) = _
    rw [if_neg hm0]
  have hrempos : 0 < remaining_papers_calc (some m) received total := by
    rw [hremeq]
    exact lt_min (by omega) (by omega)
  refine ⟨hremeq, hrempos, ?_, ?_, ?_⟩
  · rw [hremeq]
    exact min_le_left _ _
  · intro ps2 st2 mr2 rc2 tt2 hle
    unfold search_plan
    by_cases hnm : needs_more mr2 rc2 tt2 = false
    · rw [if_pos hnm]
    · rw [if_neg hnm, if_pos hle]
  · set base := start.getD 0 + page_size with hbase
    set rem := remaining_papers_calc (some m) received total with hrem
    refine ⟨generate_page_params base rem page_size, ?_, rfl, ?_, ?_⟩
    · unfold search_plan
      rw [if_neg (by simp [hmore]), if_neg (not_le.mpr hrempos)]
    · -- the first chunk starts at base
      have hcount : 1 ≤ ((rem + page_size - 1).fdiv page_size).toNat := by
        have hfe : (rem + page_size - 1).fdiv page_size =
            (rem + page_size - 1) / page_size := Int.fdiv_eq_ediv _ (by omega)
        have hsplit : rem + page_size - 1 = (rem - 1) + 1 * page_size := by ring
        have hdiv : (rem + page_size - 1) / page_size =
            (rem - 1) / page_size + 1 := by
          rw [hsplit]
          exact Int.add_mul_ediv_right _ _ (by omega)
        have hnn : 0 ≤ (rem - 1) / page_size :=
          Int.ediv_nonneg (by omega) (by omega)
        have : 1 ≤ (rem + page_size - 1).fdiv page_size := by
          rw [hfe, hdiv]
          omega
        omega
      have hminpos : base < min (base + page_size) (base + rem) :=
        lt_min (by omega) (by omega)
      have hzero : base + ((0 : Nat) : Int) * page_size = base := by
        push_cast
        ring
      have h0 : (if base + ((0 : Nat) : Int) * page_size <
          min (base + ((0 : Nat) : Int) * page_size + page_size)
            (base + rem) then
          some (⟨base + ((0 : Nat) : Int) * page_size,
            min (base + ((0 : Nat) : Int) * page_size + page_size)
              (base + rem)⟩ : PageParam)
        else none) =
          some ⟨base, min (base + page_size) (base + rem)⟩ := by
        rw [hzero, if_pos hminpos]
      unfold generate_page_params
      rw [head_filterMap_range _ _ _ hcount h0]
      rfl
    · intro pp hpp
      unfold generate_page_params at hpp
      obtain ⟨page, hpage, hf⟩ := List.mem_filterMap.mp hpp
      by_cases hcond : base + (page : Int) * page_size <
          min (base + (page : Int) * page_size + page_size) (base + rem)
      · rw [if_pos hcond] at hf
        have hppstart : pp.start = base + (page : Int) * page_size := by
          rw [← Option.some.inj hf]
        have hppstop : pp.stop =
            min (base + (page : Int) * page_size + page_size) (base + rem) := by
          rw [← Option.some.inj hf]
        constructor
        · rw [hppstart]
          have : 0 ≤ (page : Int) * page_size :=
            mul_nonneg (by exact_mod_cast Nat.zero_le page) (by omega)
          omega
        · rw [hppstop]
          exact le_trans (min_le_right _ _) (by omega)
      · rw [if_neg hcond] at hf
        exact Option.noConfusion hf

/-- Witness for C9 (amended): configured page size 50, `max_results`
100, 50 papers received out of 10000. -/
theorem C9_search_plan_amended_witness :
    remaining_papers_calc (some 100) 50 10000 = min (100 - 50) (10000 - 50) ∧
    (0 : Int) < remaining_papers_calc (some 100) 50 10000 ∧
    remaining_papers_calc (some 100) 50 10000 ≤ 100 - 50 ∧
    (∀ ps2 st2 mr2 rc2 tt2, remaining_papers_calc mr2 rc2 tt2 ≤ 0 →
      search_plan ps2 st2 mr2 rc2 tt2 = SearchPlan.singlePage) ∧
    ∃ pages,
      search_plan 50 (some 0) (some 100) 50 10000 =
        SearchPlan.multiPage pages ∧
      pages =
        generate_page_params ((some (0 : Int)).getD 0 + 50)
          (remaining_papers_calc (some 100) 50 10000) 50 ∧
      pages.head?.map PageParam.start = some ((some (0 : Int)).getD 0 + 50) ∧
      (∀ pp ∈ pages,
        (some (0 : Int)).getD 0 + 50 ≤ pp.start ∧
        pp.stop ≤ (some (0 : Int)).getD 0 + 50 +
          remaining_papers_calc (some 100) 50 10000) :=
  C9_search_plan_amended 50 (some 0) 100 50 10000 (by decide) (by decide) (by decide)

end Aioarxiv
